import Mathlib

/-!
Shallow embedding of the redis-rust-copy core data structures and proofs of
the specification claims about them.

Source files embedded here:
  * src/int_set.rs  — the Adaptive Integer Set (sorted flat array of i64
    values stored at a 16/32/64-bit element width);
  * src/sds.rs      — the Compact Byte Buffer (growable byte string with a
    variable-width header);
  * src/ad_list.rs  — the generic doubly linked list;
  * src/z_malloc.rs — the allocator adapter.

Modelling conventions:
  * Machine integers are modelled as Nat or Int.  i64 values are plain Int
    (all arithmetic in the source stays in range; the only narrowing casts,
    `value as i16` / `value as i32` in the search dispatch, are modelled
    explicitly with two's-complement wrap functions).
  * The allocator adapter is a parameter `u : Nat → Nat` giving the usable
    block size for a malloc request (`z_malloc_usable` returns
    `malloc_usable_size`, which is at least the request on the supported
    platforms).  `z_realloc_usable` returns the requested size itself as the
    usable size, which the model reproduces literally.
  * Fatal paths (the capacity-overflow abort in `IntSet::resize`) are
    modelled by returning `none`.
  * Raw byte arrays reinterpreted at an element width are modelled by the
    list of logical element values; the element moves done with pointer
    copies in the source are translated to the corresponding list
    transformations, with the exact offsets and counts of the source kept in
    comments at each translation.
-/

namespace IntSet

/-- `enum Encoding` from src/int_set.rs: the per-element width.  The Rust
discriminants are the byte sizes 2, 4, 8, and the derived ordering compares
those discriminants. -/
inductive Encoding where
  | INT16 : Encoding
  | INT32 : Encoding
  | INT64 : Encoding
deriving DecidableEq, Repr

/-- `Encoding::byte_size`: the enum discriminant, the width in bytes. -/
def Encoding.byte_size : Encoding → Nat
  | .INT16 => 2
  | .INT32 => 4
  | .INT64 => 8

/-- `Encoding::value_encoding(v: i64)`: minimal encoding for a value, with
boundaries at the signed 16/32-bit range limits. -/
def Encoding.value_encoding (v : Int) : Encoding :=
  if v < -2147483648 ∨ v > 2147483647 then .INT64
  else if v < -32768 ∨ v > 32767 then .INT32
  else .INT16

/-- The derived `PartialOrd` on `Encoding` compares the discriminants,
i.e. the byte sizes; `encoding_lt a b` is the Rust `a < b`. -/
def encoding_lt (a b : Encoding) : Prop :=
  a.byte_size < b.byte_size

instance (a b : Encoding) : Decidable (encoding_lt a b) := by
  unfold encoding_lt; infer_instance

/-- Two's-complement narrowing `v as i16` (only applied by the search
dispatch; every call site has already checked that `v` fits, so the wrap is
the identity there). -/
def wrap16 (v : Int) : Int :=
  (v + 32768) % 65536 - 32768

/-- Two's-complement narrowing `v as i32`. -/
def wrap32 (v : Int) : Int :=
  (v + 2147483648) % 4294967296 - 2147483648

end IntSet

/-- `struct IntSet` / `IntSetInner` from src/int_set.rs.  `contents` is the
list of the `len` live element values (the source stores them packed at the
current encoding's width; the invariant that every stored value fits the
encoding makes the value list a faithful view).  `alloc` is the `alloc: u16`
header field: the usable byte capacity of the element area.  `globalEmpty`
records whether the handle still aliases the static `EMPTY_SET` instance. -/
structure IntSet where
  encoding : IntSet.Encoding
  contents : List Int
  alloc : Nat
  globalEmpty : Bool
deriving DecidableEq, Repr

namespace IntSet

/-- `size_of::<IntSetInner>()`, asserted to be 6 by the source's own test. -/
def hdrSize : Nat := 6

/-- `IntSet::new()`: alias the static `EMPTY_SET` (INT16, len 0, alloc 0). -/
def new : IntSet :=
  { encoding := .INT16, contents := [], alloc := 0, globalEmpty := true }

/-- `IntSet::resize(len)`.  The source first aborts if the requested byte
size overflows the 16-bit capacity field (modelled as `none`), then grows
only when the size exceeds the current `alloc`: the global-empty instance is
replaced by a fresh `z_malloc_usable` block (usable size `u …`, header copied
over), any other instance is grown with `z_realloc_usable`, whose usable
result is exactly the requested size.  In both cases
`alloc := usable - size_of::<IntSetInner>()`.  When the size already fits,
nothing happens — in particular the storage is never shrunk. -/
def resize (u : Nat → Nat) (s : IntSet) (len : Nat) : Option IntSet :=
  if len * s.encoding.byte_size > 65535 then
    none
  else if len * s.encoding.byte_size > s.alloc then
    some { s with
           alloc := (if s.globalEmpty
                     then u (len * s.encoding.byte_size + hdrSize)
                     else len * s.encoding.byte_size + hdrSize) - hdrSize,
           globalEmpty := false }
  else
    some s

/-- The `while max >= min` binary-search loop of `IntSet::typed_search`.
`(min + max) >> 1` is an arithmetic shift on `isize`, i.e. floor division by
two, which on `Int` is `/ 2` (Euclidean division).  Out-of-range reads cannot occur on
the paths the callers reach; the list read uses `getD … 0` at the same
index the source dereferences.  Note the loop returns `mid` — not `min` —
as the not-found position. -/
def searchLoop (contents : List Int) (value : Int)
    (min max mid : Int) : Bool × Int :=
  if max ≥ min then
    let mid2 := (min + max) / 2
    let mid_value := contents.getD mid2.toNat 0
    if value > mid_value then
      searchLoop contents value (mid2 + 1) max mid2
    else if value < mid_value then
      searchLoop contents value min (mid2 - 1) mid2
    else
      (true, mid2)
  else
    (false, mid)
termination_by (max - min + 1).toNat
decreasing_by
  all_goals simp_wf
  all_goals omega

/-- `IntSet::typed_search::<T>(value)`: closed-interval binary search over
the sorted element array, with the two short-circuit guards on the first and
last element.  Only called with a non-empty array. -/
def typed_search (contents : List Int) (value : Int) : Bool × Int :=
  let len := contents.length
  if value > contents.getD (len - 1) 0 then
    (false, (len : Int))
  else if value < contents.getD 0 0 then
    (false, 0)
  else
    searchLoop contents value 0 ((len : Int) - 1) 0

/-- `IntSet::search(value)`: dispatch on the current encoding, narrowing the
probe value to the element width (`value as i16` / `value as i32`). -/
def search (s : IntSet) (value : Int) : Bool × Int :=
  if s.contents.length = 0 then
    (false, 0)
  else
    match s.encoding with
    | .INT16 => typed_search s.contents (wrap16 value)
    | .INT32 => typed_search s.contents (wrap32 value)
    | .INT64 => typed_search s.contents value

/-- `IntSet::move_one_by_one_then_put`: widen every element of the old
layout (a value-preserving `From` conversion, written back to front to avoid
overlap) and then write `value` at index 0 (prepend) or index `size`
(append).  On the logical element sequence this is exactly a cons or an
append. -/
def move_one_by_one_then_put (elems : List Int) (value : Int)
    (prepend : Bool) : List Int :=
  if prepend then value :: elems else elems ++ [value]

/-- `IntSet::upgrade_and_add(value, value_enc)`: switch the header to the
wider encoding, resize to `old_len + 1` elements, move the elements to the
wide layout and place the new value at the front if negative, else at the
end.  (The `unreachable` match arms for equal or narrowing encodings cannot
run: the caller has checked `value_enc > encoding`.) -/
def upgrade_and_add (u : Nat → Nat) (s : IntSet) (value : Int)
    (value_enc : Encoding) : Option IntSet :=
  let current_len := s.contents.length
  (resize u { s with encoding := value_enc } (current_len + 1)).map
    fun s2 =>
      { s2 with contents :=
          move_one_by_one_then_put s2.contents value (value < 0) }

/-- `IntSet::put_one(pos, value, need_move)`: when `need_move`, shift
`contents[pos .. len)` one slot to the right (`from.copy_to(from.offset(1),
len - pos)`) and write `value` at `pos`; otherwise write `value` directly at
slot `pos`, which the caller only does with `pos = len`, one past the live
elements.  `len += 1` afterwards; the live prefix is the returned list. -/
def put_one (contents : List Int) (pos : Nat) (value : Int)
    (need_move : Bool) : List Int :=
  if need_move then
    contents.take pos ++ value :: contents.drop pos
  else
    contents ++ [value]

/-- `IntSet::insert(value)`: upgrade-and-add when the value needs a wider
encoding; otherwise binary-search, fail on a duplicate, else resize to
`len + 1` and place the value at the returned position (shifting the tail
right when the position is interior). -/
def insert (u : Nat → Nat) (s : IntSet) (value : Int) :
    Option (IntSet × Bool) :=
  let value_enc := Encoding.value_encoding value
  if encoding_lt s.encoding value_enc then
    (upgrade_and_add u s value value_enc).map fun s2 => (s2, true)
  else
    let r := search s value
    if r.1 then
      some (s, false)
    else
      let len := s.contents.length
      (resize u s (len + 1)).map fun s2 =>
        let need_move := r.2 < (len : Int)
        let contents2 :=
          match s2.encoding with
          | .INT16 => put_one s2.contents r.2.toNat (wrap16 value) need_move
          | .INT32 => put_one s2.contents r.2.toNat (wrap32 value) need_move
          | .INT64 => put_one s2.contents r.2.toNat value need_move
        ({ s2 with contents := contents2 }, true)

/-- `IntSet::remove(value)`: fail when the value's encoding exceeds the
set's, or when the search misses.  Otherwise, when `pos < last_idx`, the
source runs `from.offset(1).copy_to(from, last_idx - pos)` with `from` the
START of the element array — it copies elements `[1, 1 + count)` over
`[0, count)` (the `+ pos` base offset of redis's `intsetMoveTail(pos+1, pos)`
is missing).  On the element list that replaces the first `count` elements
by elements `1 .. count + 1`.  Then `resize(len - 1)` (a no-op unless it
aborts, since resize never shrinks) and `len -= 1`, so the live elements are
the first `len - 1` slots. -/
def remove (u : Nat → Nat) (s : IntSet) (value : Int) :
    Option (IntSet × Bool) :=
  if encoding_lt s.encoding (Encoding.value_encoding value) then
    some (s, false)
  else
    let r := search s value
    if !r.1 then
      some (s, false)
    else
      let len := s.contents.length
      let last_idx : Int := (len : Int) - 1
      let contents1 :=
        if r.2 < last_idx then
          let count := (last_idx - r.2).toNat
          (s.contents.drop 1).take count ++ s.contents.drop count
        else
          s.contents
      (resize u { s with contents := contents1 } (len - 1)).map fun s2 =>
        ({ s2 with contents := s2.contents.take (len - 1) }, true)

/-- `IntSet::contain(value)`: encoding pre-check, then binary search. -/
def contain (s : IntSet) (value : Int) : Bool :=
  if encoding_lt s.encoding (Encoding.value_encoding value) then
    false
  else
    (search s value).1

/-- Result of `IntSet::get`.  `ok v` is the returned `Option<i64>`;
`oobRead` marks the path where the source dereferences
`contents.offset(index)` with `index < 0` — a read outside the element
array (into the header or before the block), which is undefined
behaviour. -/
inductive GetResult where
  | ok : Option Int → GetResult
  | oobRead : GetResult
deriving DecidableEq, Repr

/-- `IntSet::get(index: isize)`: the source checks only
`index < len as isize` and then reads `contents.offset(index)` unchecked —
there is no `index >= 0` check, so a negative index passes the guard and
reads out of bounds (modelled as `oobRead`).  In range, the read widens the
stored element to i64, preserving its value. -/
def get (s : IntSet) (index : Int) : GetResult :=
  if index < (s.contents.length : Int) then
    if 0 ≤ index then
      .ok (some (s.contents.getD index.toNat 0))
    else
      .oobRead
  else
    .ok none

/-- `IntSet::random()`: literally `self.get(0)`. -/
def random (s : IntSet) : GetResult :=
  get s 0

/-- A sequence of `insert` calls threaded through the fallible state
(`none` as soon as one insert aborts in `resize`). -/
def insertSeq (u : Nat → Nat) (s : IntSet) : List Int → Option IntSet
  | [] => some s
  | v :: vs =>
    match insert u s v with
    | some (s2, _) => insertSeq u s2 vs
    | none => none

end IntSet

namespace Sds

/-- `SDS_MAX_PRE_ALLOC`: the 1 MiB pre-allocation ceiling. -/
def SDS_MAX_PRE_ALLOC : Nat := 1024 * 1024

/-- `sds_req_type(string_size)`: minimal header width tag (1 = 8-bit fields,
2 = 16-bit, 3 = 32-bit, 4 = 64-bit) able to represent the size. -/
def sds_req_type (string_size : Nat) : Nat :=
  if string_size < 2 ^ 8 then 1
  else if string_size < 2 ^ 16 then 2
  else if string_size < 2 ^ 32 then 3
  else 4

/-- `sds_hdr_size(sds_type)`: byte size of the packed header
`SdsHdr<T> { len: T, alloc: T, flags: u8 }` for each width tag. -/
def sds_hdr_size (sds_type : Nat) : Nat :=
  if sds_type = 1 then 3
  else if sds_type = 2 then 5
  else if sds_type = 3 then 9
  else 17

/-- `sds_type_max_size(sds_type)`: largest value of the header's field
type. -/
def sds_type_max_size (sds_type : Nat) : Nat :=
  if sds_type = 1 then 2 ^ 8 - 1
  else if sds_type = 2 then 2 ^ 16 - 1
  else if sds_type = 3 then 2 ^ 32 - 1
  else 2 ^ 64 - 1

end Sds

/-- `struct Sds` from src/sds.rs together with its header.  `content` is
the `len`-byte live payload (bytes as `Nat`), `typeCode` the `flags` tag
(`SDS_TYPE_8` = 1 … `SDS_TYPE_64` = 4), `alloc` the header's capacity
field, and `globalEmpty` whether the value still aliases the static
`EMPTY_HDR` instance. -/
structure Sds where
  typeCode : Nat
  content : List Nat
  alloc : Nat
  globalEmpty : Bool
deriving DecidableEq, Repr

namespace Sds

/-- `sdslen`: the header's length field — the live byte count. -/
def len (s : Sds) : Nat := s.content.length

/-- `sds_avail`: `alloc - len` (the headers' fields are unsigned and the
invariant `alloc ≥ len` holds in every reachable state). -/
def avail (s : Sds) : Nat := s.alloc - s.len

/-- `Sds::empty()`: alias the static `EMPTY_HDR` (8-bit header, len 0,
alloc 0). -/
def empty : Sds :=
  { typeCode := 1, content := [], alloc := 0, globalEmpty := true }

/-- `Sds::from_slice` / `from_str` (via `from_raw_pointer`): an empty input
yields the shared empty instance; otherwise allocate `init_len + hdr_size`
bytes, record `usable - hdr_size` clamped to the header type's maximum as
`alloc`, and copy the bytes. -/
def from_slice (u : Nat → Nat) (init : List Nat) : Sds :=
  if init.length = 0 then
    empty
  else
    let sds_type := sds_req_type init.length
    let hdr_size := sds_hdr_size sds_type
    { typeCode := sds_type,
      content := init,
      alloc := min (u (init.length + hdr_size) - hdr_size)
                   (sds_type_max_size sds_type),
      globalEmpty := false }

/-- How `make_room_for` obtained its storage: `noGrowth` when the slack
already sufficed (no allocator call at all), `reallocInPlace req` for the
`s_realloc_usable` path, `freshAlloc req freedOld` for the
`s_malloc_usable`-copy path (`freedOld` records whether the old block was
passed to `s_free`).  `req` is the requested byte size. -/
inductive GrowAction where
  | noGrowth : GrowAction
  | reallocInPlace : Nat → GrowAction
  | freshAlloc : Nat → Bool → GrowAction
deriving DecidableEq, Repr

/-- The grown logical length computed by `make_room_for`:
`new_len = len + inc_len`, doubled while under the 1 MiB ceiling, else
increased by the ceiling. -/
def grow_target (len inc_len : Nat) : Nat :=
  if len + inc_len < SDS_MAX_PRE_ALLOC then
    (len + inc_len) * 2
  else
    len + inc_len + SDS_MAX_PRE_ALLOC

/-- `Sds::make_room_for(inc_len)`: return unchanged when the available
slack covers `inc_len`.  Otherwise compute the grown target length and its
header type.  If the type is unchanged and the buffer is not the shared
empty instance, `s_realloc_usable(old, hdr_len + new_len)` in place (its
usable result is the requested size).  Otherwise allocate fresh storage
with `s_malloc_usable`, copy the `len` live bytes, free the old block
unless it is the shared empty instance, and rewrite the type tag and
length.  Finally `alloc := min (usable - hdr_len) (type max)`. -/
def make_room_for (u : Nat → Nat) (s : Sds) (inc_len : Nat) :
    Sds × GrowAction :=
  if inc_len ≤ s.avail then
    (s, .noGrowth)
  else
    let new_len := grow_target s.len inc_len
    let new_type := sds_req_type new_len
    let hdr_len := sds_hdr_size new_type
    if s.typeCode = new_type ∧ s.globalEmpty = false then
      ({ s with alloc := min (hdr_len + new_len - hdr_len)
                             (sds_type_max_size new_type) },
       .reallocInPlace (hdr_len + new_len))
    else
      ({ typeCode := new_type,
         content := s.content,
         alloc := min (u (hdr_len + new_len) - hdr_len)
                      (sds_type_max_size new_type),
         globalEmpty := false },
       .freshAlloc (hdr_len + new_len) (!s.globalEmpty))

/-- `Sds::push_from_raw_pointer(ptr, len)` (the body of `push_str` /
`push_slice` / `push`): a zero-length append returns immediately;
otherwise make room, copy the bytes after the `old_len` live ones and set
the length to `old_len + len`.  The paired `GrowAction` reports the
allocator interaction. -/
def push_from_raw_pointer (u : Nat → Nat) (s : Sds) (bytes : List Nat) :
    Sds × GrowAction :=
  if bytes.length = 0 then
    (s, .noGrowth)
  else
    let r := make_room_for u s bytes.length
    ({ r.1 with content := r.1.content ++ bytes }, r.2)

/-- `<[u8] as Ord>::cmp`: byte-wise lexicographic comparison; on equal
prefixes the shorter slice is smaller. -/
def sliceCmp : List Nat → List Nat → Ordering
  | [], [] => .eq
  | [], _ :: _ => .lt
  | _ :: _, [] => .gt
  | a :: as_, b :: bs =>
    if a < b then .lt
    else if b < a then .gt
    else sliceCmp as_ bs

/-- `Ord::cmp` for `Sds`: `self.as_slice().cmp(other.as_slice())` — the
live `len`-bounded byte slices only; header fields never participate. -/
def cmp (a b : Sds) : Ordering :=
  sliceCmp a.content b.content

/-- `PartialEq::eq` for `Sds`: `cmp == Ordering::Equal`. -/
def beqSds (a b : Sds) : Bool :=
  cmp a b == Ordering.eq

end Sds

/-- `struct List<T>` from src/ad_list.rs.  `elems` is the head-to-tail
sequence of node values; `len` is its length.  A node reference
(`*const Node<T>`) is modelled as the node's position from the head
(`Option Nat`, `none` for the null pointer): within one list state,
distinct positions are distinct heap nodes. -/
structure AdList (α : Type) where
  elems : List α
deriving DecidableEq, Repr

namespace AdList

/-- `listCreate`. -/
def new {α : Type} : AdList α := { elems := [] }

/-- `List::len`. -/
def len {α : Type} (l : AdList α) : Nat := l.elems.length

/-- `List::is_empty`. -/
def is_empty {α : Type} (l : AdList α) : Bool := l.len = 0

/-- `List::push_front(value)`: new node becomes the head. -/
def push_front {α : Type} (l : AdList α) (value : α) : AdList α :=
  { elems := value :: l.elems }

/-- `List::push_back(value)`: new node becomes the tail. -/
def push_back {α : Type} (l : AdList α) (value : α) : AdList α :=
  { elems := l.elems ++ [value] }

/-- The `while index > 0 && !n.is_null()` walk loops of `List::get`.  The
chain argument is the sequence of node positions reachable from the start
node by following `next` (forward walk) or `prev` (reversed chain).  Note
the loops of the source never decrement `index`, so with a positive index
the walk only stops at the null pointer at the end of the chain. -/
def get_walk (index : Int) : List Nat → Option Nat
  | [] => none
  | p :: rest => if 0 < index then get_walk index rest else some p

/-- `List::get(index)`: for a negative index set `index := -index - 1` and
walk `prev` from the tail; otherwise walk `next` from the head; return the
node where the walk stops (`none` = null).  Node positions from the head
are `0 … len-1`; the forward chain from the head is `range len`, the
backward chain from the tail its reverse. -/
def get {α : Type} (l : AdList α) (index : Int) : Option Nat :=
  if index < 0 then
    get_walk (-index - 1) (List.range l.len).reverse
  else
    get_walk index (List.range l.len)

/-- `List::append(other)` (`listJoin`): no-op when `other` is empty, else
splice `other`'s whole chain onto the tail, add the lengths and leave
`other` empty.  Returns the updated `(self, other)` pair. -/
def append {α : Type} (l other : AdList α) : AdList α × AdList α :=
  if other.is_empty then
    (l, other)
  else
    ({ elems := l.elems ++ other.elems }, { elems := [] })

end AdList

/-! ### Shared evaluation lemmas for the concrete integer-set runs -/

/-- Binary search for 20 in [10, 30, 50]: the loop probes index 1 (30,
too big), then index 0 (10, too small, setting `min := 1`), exits with
`max < min` and returns the stale `mid = 0` — the correct insertion
position would be `min = 1`. -/
lemma searchLoop_eval_10_30_50_for20 :
    IntSet.searchLoop [10, 30, 50] 20 0 2 0 = (false, 0) := by
  unfold IntSet.searchLoop
  norm_num
  unfold IntSet.searchLoop
  norm_num
  unfold IntSet.searchLoop
  norm_num

/-- Binary search for 20 in [10, 20, 30]: found at index 1 on the first
probe. -/
lemma searchLoop_eval_10_20_30_for20 :
    IntSet.searchLoop [10, 20, 30] 20 0 2 0 = (true, 1) := by
  unfold IntSet.searchLoop
  norm_num

lemma search_eval_10_30_50_for20 :
    IntSet.search { encoding := .INT16, contents := [10, 30, 50],
                    alloc := 6, globalEmpty := false } 20 = (false, 0) := by
  simp only [IntSet.search, IntSet.typed_search, IntSet.wrap16]
  norm_num [searchLoop_eval_10_30_50_for20]

lemma search_eval_10_20_30_for20 :
    IntSet.search { encoding := .INT16, contents := [10, 20, 30],
                    alloc := 6, globalEmpty := false } 20 = (true, 1) := by
  simp only [IntSet.search, IntSet.typed_search, IntSet.wrap16]
  norm_num [searchLoop_eval_10_20_30_for20]

lemma insert_eval_10_30_50_plus20 :
    IntSet.insert id { encoding := .INT16, contents := [10, 30, 50],
                       alloc := 6, globalEmpty := false } 20 =
      some ({ encoding := .INT16, contents := [20, 10, 30, 50],
              alloc := 8, globalEmpty := false }, true) := by
  simp only [IntSet.insert]
  rw [search_eval_10_30_50_for20]
  decide

/-- C1: the claim — after any sequence of distinct inserts, `contain`
holds exactly for the inserted values and the array is sorted ascending —
fails on the code.  `typed_search` returns the stale probe index `mid`
instead of `min` as the not-found insertion position (redis's
`intsetSearch`, which the code cites, returns `min`).  Inserting the
distinct values 10, 30, 50, 20 into an empty set therefore places 20 at
slot 0: the array becomes [20, 10, 30, 50] — not sorted ascending — and
`contain 10` then returns false although 10 was inserted. -/
theorem c1_intset_insert_sequence_breaks_invariant :
    IntSet.insertSeq id IntSet.new [10, 30, 50, 20] =
      some { encoding := .INT16, contents := [20, 10, 30, 50],
             alloc := 8, globalEmpty := false }
    ∧ IntSet.contain { encoding := .INT16, contents := [20, 10, 30, 50],
                       alloc := 8, globalEmpty := false } 10 = false
    ∧ ¬ List.Chain' (· < ·)
        (IntSet.contents { encoding := .INT16, contents := [20, 10, 30, 50],
                           alloc := 8, globalEmpty := false }) := by
  refine ⟨?_, by decide, by norm_num [List.chain'_cons]⟩
  have e1 : IntSet.insert id IntSet.new 10 =
      some ({ encoding := .INT16, contents := [10],
              alloc := 2, globalEmpty := false }, true) := by decide
  have e2 : IntSet.insert id { encoding := .INT16, contents := [10],
                               alloc := 2, globalEmpty := false } 30 =
      some ({ encoding := .INT16, contents := [10, 30],
              alloc := 4, globalEmpty := false }, true) := by decide
  have e3 : IntSet.insert id { encoding := .INT16, contents := [10, 30],
                               alloc := 4, globalEmpty := false } 50 =
      some ({ encoding := .INT16, contents := [10, 30, 50],
              alloc := 6, globalEmpty := false }, true) := by decide
  simp only [IntSet.insertSeq, e1, e2, e3, insert_eval_10_30_50_plus20]

/-- C3: the claim — removing a present value shifts the tail left over the
removed slot and shrinks the capacity by one element — fails on the code.
With the set built by inserting 10, 20, 30 (sorted, capacity 6 bytes),
`remove 20` runs `from.offset(1).copy_to(from, count)` with `from` the
array base instead of the removed slot (redis's `intsetMoveTail(pos+1,
pos)` offsets by `pos`), so the live elements become [20, 20] rather than
[10, 30]; and `resize(len - 1)` never shrinks (it reallocates only when
the needed size exceeds `alloc`), so the capacity field stays 6 instead of
dropping to 4. -/
theorem c3_intset_remove_shifts_wrong_slice :
    IntSet.insertSeq id IntSet.new [10, 20, 30] =
      some { encoding := .INT16, contents := [10, 20, 30],
             alloc := 6, globalEmpty := false }
    ∧ IntSet.remove id { encoding := .INT16, contents := [10, 20, 30],
                         alloc := 6, globalEmpty := false } 20 =
        some ({ encoding := .INT16, contents := [20, 20],
                alloc := 6, globalEmpty := false }, true)
    ∧ ([20, 20] : List Int) ≠ [10, 30]
    ∧ (6 : Nat) ≠ 4 := by
  refine ⟨by decide, ?_, by decide, by decide⟩
  simp only [IntSet.remove]
  rw [search_eval_10_20_30_for20]
  decide

/-- C4: the claim — `get(index)` returns `None` for every index outside
`0 ≤ index < n` — fails on the code: the guard checks only
`index < len as isize`, so a negative index passes it and the subsequent
unchecked `contents.offset(index)` read is out of bounds (the cited redis
`intsetGet` takes an unsigned position).  On the one-element set {7},
`get (-1)` reaches the out-of-bounds read instead of returning `None`.
The in-range behaviour and `random() = get(0)` do hold. -/
theorem c4_intset_get_negative_index_oob :
    IntSet.insert id IntSet.new 7 =
      some ({ encoding := .INT16, contents := [7],
              alloc := 2, globalEmpty := false }, true)
    ∧ IntSet.get { encoding := .INT16, contents := [7],
                   alloc := 2, globalEmpty := false } (-1) =
        IntSet.GetResult.oobRead
    ∧ IntSet.get { encoding := .INT16, contents := [7],
                   alloc := 2, globalEmpty := false } (-1) ≠
        IntSet.GetResult.ok none
    ∧ IntSet.get { encoding := .INT16, contents := [7],
                   alloc := 2, globalEmpty := false } 0 =
        IntSet.GetResult.ok (some 7)
    ∧ IntSet.get { encoding := .INT16, contents := [7],
                   alloc := 2, globalEmpty := false } 1 =
        IntSet.GetResult.ok none
    ∧ IntSet.random { encoding := .INT16, contents := [7],
                      alloc := 2, globalEmpty := false } =
        IntSet.get { encoding := .INT16, contents := [7],
                     alloc := 2, globalEmpty := false } 0 := by
  refine ⟨by decide, by decide, by decide, by decide, by decide, by decide⟩

/-! ### Encoding monotonicity -/

/-- `IntSet::resize` never touches the encoding field. -/
lemma resize_keeps_encoding {u : Nat → Nat} {s : IntSet} {n : Nat}
    {s2 : IntSet} (h : IntSet.resize u s n = some s2) :
    s2.encoding = s.encoding := by
  unfold IntSet.resize at h
  split at h
  · exact absurd h (by simp)
  · split at h
    · obtain rfl := Option.some.inj h
      rfl
    · obtain rfl := Option.some.inj h
      rfl

/-- `IntSet::upgrade_and_add` leaves the set at exactly the requested wider
encoding. -/
lemma upgrade_and_add_encoding {u : Nat → Nat} {s : IntSet} {v : Int}
    {e : IntSet.Encoding} {s2 : IntSet}
    (h : IntSet.upgrade_and_add u s v e = some s2) :
    s2.encoding = e := by
  unfold IntSet.upgrade_and_add at h
  rw [Option.map_eq_some'] at h
  obtain ⟨s3, h3, rfl⟩ := h
  have := resize_keeps_encoding h3
  simpa using this

/-- C7: the encoding is monotonically non-decreasing: any `insert` or
`remove` that completes (does not hit the fatal resize overflow) leaves the
encoding at least as wide as before.  `insert` widens it only on the
upgrade path, where the new encoding is strictly wider by the guard;
`remove` and `resize` never write the encoding field at all. -/
theorem c7_intset_encoding_monotone :
    (∀ (u : Nat → Nat) (s : IntSet) (v : Int) (s2 : IntSet) (b : Bool),
       IntSet.insert u s v = some (s2, b) →
       s.encoding.byte_size ≤ s2.encoding.byte_size)
    ∧ (∀ (u : Nat → Nat) (s : IntSet) (v : Int) (s2 : IntSet) (b : Bool),
       IntSet.remove u s v = some (s2, b) →
       s.encoding.byte_size ≤ s2.encoding.byte_size) := by
  constructor
  · intro u s v s2 b h
    simp only [IntSet.insert] at h
    split at h
    · rename_i hlt
      rw [Option.map_eq_some'] at h
      obtain ⟨s3, h3, he⟩ := h
      obtain ⟨rfl, rfl⟩ := Prod.mk.injEq .. ▸ he
      have := upgrade_and_add_encoding h3
      rw [this]
      exact le_of_lt hlt
    · split at h
      · obtain ⟨rfl, rfl⟩ := Prod.mk.injEq .. ▸ Option.some.inj h
        exact le_refl _
      · rw [Option.map_eq_some'] at h
        obtain ⟨s3, h3, he⟩ := h
        have henc := resize_keeps_encoding h3
        obtain ⟨rfl, rfl⟩ := Prod.mk.injEq .. ▸ he
        simp [henc]
  · intro u s v s2 b h
    simp only [IntSet.remove] at h
    split at h
    · obtain ⟨rfl, rfl⟩ := Prod.mk.injEq .. ▸ Option.some.inj h
      exact le_refl _
    · split at h
      · obtain ⟨rfl, rfl⟩ := Prod.mk.injEq .. ▸ Option.some.inj h
        exact le_refl _
      · rw [Option.map_eq_some'] at h
        obtain ⟨s3, h3, he⟩ := h
        have henc := resize_keeps_encoding h3
        obtain ⟨rfl, rfl⟩ := Prod.mk.injEq .. ▸ he
        simp [henc]

/-- Witness for C7 at concrete inputs: inserting 5 into the empty set and
removing 5 from the empty set both complete, and both leave the encoding at
least as wide as before. -/
theorem c7_intset_encoding_monotone_witness :
    IntSet.new.encoding.byte_size ≤
      (IntSet.mk .INT16 [5] 2 false).encoding.byte_size
    ∧ IntSet.new.encoding.byte_size ≤ IntSet.new.encoding.byte_size :=
  ⟨c7_intset_encoding_monotone.1 id IntSet.new 5
     (IntSet.mk .INT16 [5] 2 false) true (by decide),
   c7_intset_encoding_monotone.2 id IntSet.new 5 IntSet.new false
     (by decide)⟩

/-! ### List::get -/

/-- With a positive (never-decremented) index, the walk loop of
`List::get` runs off the end of the chain and stops only at null. -/
lemma get_walk_pos {index : Int} (h : 0 < index) :
    ∀ chain : List Nat, AdList.get_walk index chain = none := by
  intro chain
  induction chain with
  | nil => rfl
  | cons p rest ih => simpa [AdList.get_walk, h] using ih

/-- With a non-positive index the walk loop stops at the start node. -/
lemma get_walk_nonpos {index : Int} (h : ¬ 0 < index) (p : Nat)
    (rest : List Nat) : AdList.get_walk index (p :: rest) = some p := by
  simp [AdList.get_walk, h]

/-- C2 counterexample: on the two-element list [1, 2] the index 0 is in
range, yet `get(0)` returns the head node (position 0) while `get(-1)`
returns the tail node (position 1) — two distinct nodes, refuting
"`get(i)` and `get(-(i+1))` return the same node" at `i = 0`. -/
theorem c2_list_get_mirror_counterexample :
    (((AdList.new (α := Int)).push_back 1).push_back 2).len = 2
    ∧ AdList.get (((AdList.new (α := Int)).push_back 1).push_back 2) 0 =
        some 0
    ∧ AdList.get (((AdList.new (α := Int)).push_back 1).push_back 2) (-1) =
        some 1
    ∧ AdList.get (((AdList.new (α := Int)).push_back 1).push_back 2) 0 ≠
        AdList.get (((AdList.new (α := Int)).push_back 1).push_back 2)
          (-1) := by
  refine ⟨by decide, by decide, by decide, by decide⟩

/-- C2 amended: `get(i)` and `get(-(i+1))` agree for an in-range `i` only
when `i ≥ 1` — where both are null, because the walk loops never decrement
the index and overrun to the null pointer — or when the list has at most
one element (head = tail); and `get(length)` and `get(-(length+1))` are
both null for every list.  (At `i = 0` on a list of length ≥ 2 they
return the distinct head and tail nodes, as the counterexample shows.) -/
theorem c2_list_get_mirror_amended {α : Type} (l : AdList α) (i : Int) :
    (0 ≤ i → i < (l.len : Int) → (1 ≤ i ∨ l.len ≤ 1) →
      AdList.get l i = AdList.get l (-(i + 1)))
    ∧ AdList.get l (l.len : Int) = none
    ∧ AdList.get l (-((l.len : Int) + 1)) = none := by
  refine ⟨?_, ?_, ?_⟩
  · intro h0 hlt hcase
    rcases hcase with hone | hsmall
    · have hneg : ¬ (i < 0) := by omega
      have hneg2 : (-(i + 1) < 0) := by omega
      simp only [AdList.get, if_neg hneg, if_pos hneg2]
      have hidx : - -(i + 1) - 1 = i := by ring
      rw [hidx, get_walk_pos (by omega), get_walk_pos (by omega)]
    · have hl1 : l.len = 1 := by omega
      have hi0 : i = 0 := by omega
      subst hi0
      norm_num [AdList.get, hl1, List.range_succ, AdList.get_walk]
  · rcases Nat.eq_zero_or_pos l.len with h | h
    · simp [AdList.get, h, AdList.get_walk]
    · have hneg : ¬ ((l.len : Int) < 0) := by omega
      simp only [AdList.get, if_neg hneg]
      exact get_walk_pos (by omega) _
  · have hneg : (-((l.len : Int) + 1) < 0) := by omega
    simp only [AdList.get, if_pos hneg]
    rcases Nat.eq_zero_or_pos l.len with h | h
    · simp [h, AdList.get_walk]
    · exact get_walk_pos (by omega) _

/-- Witness for C2 amended at the list [1, 2] and `i = 1`: `get(1)` and
`get(-2)` agree (both null), and `get(2)` and `get(-3)` are null. -/
theorem c2_list_get_mirror_amended_witness :
    AdList.get { elems := [1, 2] : AdList Int } 1 =
      AdList.get { elems := [1, 2] : AdList Int } (-(1 + 1))
    ∧ AdList.get { elems := [1, 2] : AdList Int }
        (({ elems := [1, 2] : AdList Int }.len : Int)) = none
    ∧ AdList.get { elems := [1, 2] : AdList Int }
        (-(({ elems := [1, 2] : AdList Int }.len : Int) + 1)) = none := by
  have h := c2_list_get_mirror_amended ({ elems := [1, 2] } : AdList Int) 1
  exact ⟨h.1 (by decide) (by decide) (Or.inl (by decide)), h.2.1, h.2.2⟩

/-- C8: `append(A, B)` leaves A holding A's original elements followed by
B's in head-to-tail order, leaves B empty, adds the lengths — and is a
no-op returning both lists unchanged when B is empty. -/
theorem c8_list_append_splices {α : Type} (a b : AdList α) :
    (AdList.append a b).1.elems = a.elems ++ b.elems
    ∧ (AdList.append a b).2.elems = []
    ∧ (AdList.append a b).1.len = a.len + b.len
    ∧ AdList.append a { elems := [] } = (a, { elems := [] }) := by
  refine ⟨?_, ?_, ?_, ?_⟩
  · by_cases hb : b.is_empty
    · have : b.elems = [] := by
        simpa [AdList.is_empty, AdList.len, List.length_eq_zero] using hb
      simp [AdList.append, hb, this]
    · simp [AdList.append, hb]
  · by_cases hb : b.is_empty
    · have : b.elems = [] := by
        simpa [AdList.is_empty, AdList.len, List.length_eq_zero] using hb
      simp [AdList.append, hb, this]
    · simp [AdList.append, hb]
  · by_cases hb : b.is_empty
    · have : b.elems = [] := by
        simpa [AdList.is_empty, AdList.len, List.length_eq_zero] using hb
      simp [AdList.append, hb, this, AdList.len]
    · simp [AdList.append, hb, AdList.len]
  · simp [AdList.append, AdList.is_empty, AdList.len]

/-- C10: appending a zero-length byte run returns before doing anything:
the buffer (content, length, capacity field, header type, shared-empty
status) is bit-for-bit unchanged and no allocator call happens. -/
theorem c10_sds_push_empty_noop (u : Nat → Nat) (s : Sds) :
    Sds.push_from_raw_pointer u s [] = (s, Sds.GrowAction.noGrowth) := by
  rfl

/-! ### Byte buffer append -/

/-- Both growth paths of `make_room_for` keep the live bytes: the realloc
path leaves them in place, the fresh-allocation path copies all `len` of
them. -/
lemma make_room_for_content (u : Nat → Nat) (s : Sds) (inc : Nat) :
    (Sds.make_room_for u s inc).1.content = s.content := by
  unfold Sds.make_room_for
  split
  · rfl
  · dsimp only
    split <;> rfl

/-- One append writes the new bytes after the preserved old ones. -/
lemma push_content (u : Nat → Nat) (s : Sds) (bytes : List Nat) :
    (Sds.push_from_raw_pointer u s bytes).1.content =
      s.content ++ bytes := by
  unfold Sds.push_from_raw_pointer
  split
  · rename_i h
    simp [List.length_eq_zero.mp h]
  · simp [make_room_for_content]

/-- C6: append growth never loses bytes — after any sequence of appends
the content is the initial content followed by all appended runs in order,
and the length is the initial length plus the total appended size; in
particular building from "Hi, " and appending "redis " then "rust."
yields the 15 bytes of "Hi, redis rust.". -/
theorem c6_sds_append_preserves_bytes :
    (∀ (u : Nat → Nat) (s : Sds) (bs : List (List Nat)),
      (bs.foldl (fun a b => (Sds.push_from_raw_pointer u a b).1) s).content
          = s.content ++ bs.flatten
      ∧ (bs.foldl (fun a b => (Sds.push_from_raw_pointer u a b).1) s).len
          = s.len + bs.flatten.length)
    ∧ (Sds.push_from_raw_pointer id
        (Sds.push_from_raw_pointer id
          (Sds.from_slice id [72, 105, 44, 32])
          [114, 101, 100, 105, 115, 32]).1
        [114, 117, 115, 116, 46]).1.content =
        [72, 105, 44, 32, 114, 101, 100, 105, 115, 32,
         114, 117, 115, 116, 46]
    ∧ (Sds.push_from_raw_pointer id
        (Sds.push_from_raw_pointer id
          (Sds.from_slice id [72, 105, 44, 32])
          [114, 101, 100, 105, 115, 32]).1
        [114, 117, 115, 116, 46]).1.len = 15 := by
  refine ⟨?_, by decide, by decide⟩
  intro u s bs
  have hc : ∀ (s : Sds),
      (bs.foldl (fun a b => (Sds.push_from_raw_pointer u a b).1) s).content
        = s.content ++ bs.flatten := by
    induction bs with
    | nil => intro s; simp
    | cons b rest ih =>
      intro s
      simp only [List.foldl_cons, List.flatten_cons, ih, push_content,
        List.append_assoc]
  refine ⟨hc s, ?_⟩
  simp only [Sds.len, hc s, List.length_append]

/-! ### Byte buffer comparison -/

/-- The slice comparison reports `eq` exactly on identical byte lists. -/
lemma sliceCmp_eq_iff : ∀ a b : List Nat, Sds.sliceCmp a b = .eq ↔ a = b := by
  intro a
  induction a with
  | nil =>
    intro b
    cases b <;> simp [Sds.sliceCmp]
  | cons x xs ih =>
    intro b
    cases b with
    | nil => simp [Sds.sliceCmp]
    | cons c cs =>
      by_cases h1 : x < c
      · simp [Sds.sliceCmp, h1]
        omega
      · by_cases h2 : c < x
        · simp [Sds.sliceCmp, h1, h2]
          omega
        · have : x = c := by omega
          subst this
          simp [Sds.sliceCmp, h1, h2, ih cs]

/-- The slice comparison reports `lt` exactly on the lexicographic strict
order of the byte lists (shorter prefixes first). -/
lemma sliceCmp_lt_iff :
    ∀ a b : List Nat, Sds.sliceCmp a b = .lt ↔ List.Lex (· < ·) a b := by
  intro a
  induction a with
  | nil =>
    intro b
    cases b with
    | nil => simp [Sds.sliceCmp]
    | cons c cs => simp [Sds.sliceCmp, List.Lex.nil]
  | cons x xs ih =>
    intro b
    cases b with
    | nil => simp [Sds.sliceCmp]
    | cons c cs =>
      by_cases h1 : x < c
      · simp only [Sds.sliceCmp, if_pos h1]
        exact ⟨fun _ => List.Lex.rel h1, fun _ => trivial⟩
      · by_cases h2 : c < x
        · simp only [Sds.sliceCmp, if_neg h1, if_pos h2]
          constructor
          · intro h
            exact absurd h (by simp)
          · intro h
            cases h with
            | cons h3 => omega
            | rel h3 => omega
        · have : x = c := by omega
          subst this
          simp only [Sds.sliceCmp, if_neg h1, if_neg h2]
          rw [ih cs, List.Lex.cons_iff]

/-- The `== Ordering::Equal` test used by `PartialEq::eq`. -/
lemma ordering_beq_eq (o : Ordering) :
    (o == Ordering.eq) = true ↔ o = Ordering.eq := by
  cases o <;> decide

/-- C9: equality and ordering on buffers are byte-wise lexicographic over
the live `length`-bounded content only: two buffers compare equal exactly
when their contents coincide — whatever their `alloc` capacities, header
type codes or shared-empty flags — and `cmp` reports `lt` exactly on the
lexicographic strict byte order of the contents. -/
theorem c9_sds_compare_lexicographic (a b : Sds) :
    (Sds.beqSds a b = true ↔ a.content = b.content)
    ∧ (Sds.cmp a b = .lt ↔ List.Lex (· < ·) a.content b.content) := by
  constructor
  · rw [Sds.beqSds, Sds.cmp, ordering_beq_eq]
    exact sliceCmp_eq_iff a.content b.content
  · rw [Sds.cmp]
    exact sliceCmp_lt_iff a.content b.content

/-- C5: when the slack cannot absorb the appended length, growth uses the
target `new_len = len + added`, doubled below the 1 MiB ceiling and
increased by the ceiling otherwise; the header type is recomputed for that
target; the storage is reallocated in place exactly when the header type is
unchanged and the buffer is not the shared empty instance, and otherwise
fresh storage of the same requested size is allocated, the live bytes are
copied, and the old block is freed unless it was the shared empty
instance. -/
theorem c5_sds_make_room_for_growth (u : Nat → Nat) (s : Sds) (inc : Nat)
    (h : s.avail < inc) :
    (Sds.make_room_for u s inc).1.content = s.content
    ∧ (Sds.make_room_for u s inc).1.typeCode =
        Sds.sds_req_type (Sds.grow_target s.len inc)
    ∧ Sds.grow_target s.len inc =
        (if s.len + inc < Sds.SDS_MAX_PRE_ALLOC then (s.len + inc) * 2
         else s.len + inc + Sds.SDS_MAX_PRE_ALLOC)
    ∧ (s.typeCode = Sds.sds_req_type (Sds.grow_target s.len inc)
         ∧ s.globalEmpty = false →
       (Sds.make_room_for u s inc).2 =
         Sds.GrowAction.reallocInPlace
           (Sds.sds_hdr_size (Sds.sds_req_type (Sds.grow_target s.len inc))
             + Sds.grow_target s.len inc))
    ∧ (¬ (s.typeCode = Sds.sds_req_type (Sds.grow_target s.len inc)
            ∧ s.globalEmpty = false) →
       (Sds.make_room_for u s inc).2 =
         Sds.GrowAction.freshAlloc
           (Sds.sds_hdr_size (Sds.sds_req_type (Sds.grow_target s.len inc))
             + Sds.grow_target s.len inc)
           (!s.globalEmpty)) := by
  have hcond : ¬ (inc ≤ s.avail) := by omega
  unfold Sds.make_room_for
  rw [if_neg hcond]
  dsimp only
  by_cases hb : s.typeCode = Sds.sds_req_type (Sds.grow_target s.len inc)
      ∧ s.globalEmpty = false
  · rw [if_pos hb]
    exact ⟨rfl, hb.1, rfl, fun _ => rfl, fun hc => absurd hb hc⟩
  · rw [if_neg hb]
    exact ⟨rfl, rfl, rfl, fun hc => absurd hc hb, fun _ => rfl⟩

/-- Witness for C5: the 3-byte buffer [1, 2, 3] (8-bit header, capacity 3,
so slack 0) grown for a 5-byte append: target is (3+5)*2 = 16, the header
type stays 8-bit, and the buffer is reallocated in place with request
3 + 16 = 19 bytes, keeping the content. -/
theorem c5_sds_make_room_for_growth_witness :
    (Sds.make_room_for id (Sds.mk 1 [1, 2, 3] 3 false) 5).1.content =
      [1, 2, 3]
    ∧ (Sds.make_room_for id (Sds.mk 1 [1, 2, 3] 3 false) 5).2 =
        Sds.GrowAction.reallocInPlace 19 := by
  have h := c5_sds_make_room_for_growth id (Sds.mk 1 [1, 2, 3] 3 false) 5
    (by decide)
  refine ⟨h.1, ?_⟩
  rw [h.2.2.2.1 (by decide)]
  decide
